import Mathlib

/-!
Shallow embedding of the pyunicodegame rendering core
(src/src/pyunicodegame/__init__.py).

Pure data is embedded directly; pygame surfaces are modelled as total
functions from integer pixel coordinates to RGBA values, with every write
guarded by the surface extent (pygame surfaces clip all drawing to their
own bounds).  Glyph rasterization (pygame.freetype.Font.render) and
pygame.transform.scale are external collaborators: a glyph renderer is a
parameter of every drawing primitive.  Python floats are modelled by ℚ
where the code only truncates and compares them, and by ℝ for the sprite
physics, where the spec asks for exact real arithmetic (sqrt, drag ** dt).
-/

/-- An RGB foreground color triple (r, g, b), as passed for `fg` colors. -/
abbrev RGB := Nat × Nat × Nat

/-- An RGBA pixel or color with straight (non premultiplied) alpha. -/
structure RGBA where
  r : Nat
  g : Nat
  b : Nat
  a : Nat
deriving DecidableEq

/-- A rendered glyph bitmap, the output of the external glyph rasterizer
(`font.render(char, fg)`): a `gw × gh` pixel buffer. -/
structure Glyph where
  gw : Nat
  gh : Nat
  px : Nat → Nat → RGBA

/-- The external glyph rasterization collaborator, keyed by character and
foreground color (the font handle is fixed per window). -/
abbrev GlyphRenderer := Char → RGB → Glyph

/-- Python `int()` on a float: truncation toward zero. -/
def pytrunc (q : ℚ) : ℤ := if 0 ≤ q then ⌊q⌋ else ⌈q⌉

/-- One alpha-blended color channel of a source pixel over a destination
channel, straight-alpha "over" with the Nat arithmetic of 8-bit channels:
`(s*a + d*(255-a))/255`.  At `a = 255` this is `s`; at `a = 0` it is `d`.
Models what a pygame blit of a SRCALPHA source does per channel. -/
def blendChannel (s d a : Nat) : Nat := (s * a + d * (255 - a)) / 255

/-- Alpha-blend a source RGBA pixel over a destination RGBA pixel
(pygame blit of a SRCALPHA source onto a SRCALPHA destination). -/
def blendPx (src dst : RGBA) : RGBA :=
  ⟨blendChannel src.r dst.r src.a,
   blendChannel src.g dst.g src.a,
   blendChannel src.b dst.b src.a,
   src.a + dst.a * (255 - src.a) / 255⟩

/-- `pygame.Surface.fill(color, rect)`: overwrite (no blending) every pixel
of the rectangle, clipped to the surface extent `[0,W) × [0,H)`. -/
def fillRect (surf : ℤ → ℤ → RGBA) (W H : Nat) (rx ry : ℤ) (rw rh : Nat)
    (c : RGBA) : ℤ → ℤ → RGBA :=
  fun u v =>
    if 0 ≤ u ∧ u < (W : ℤ) ∧ 0 ≤ v ∧ v < (H : ℤ) ∧
       rx ≤ u ∧ u < rx + (rw : ℤ) ∧ ry ≤ v ∧ v < ry + (rh : ℤ) then c
    else surf u v

/-- `surface.blit(glyphSurf, (ox, oy))`: alpha-blend the glyph bitmap onto
the surface at offset `(ox, oy)`, clipped to the surface extent. -/
def blitGlyph (surf : ℤ → ℤ → RGBA) (W H : Nat) (ox oy : ℤ) (g : Glyph) :
    ℤ → ℤ → RGBA :=
  fun u v =>
    if 0 ≤ u ∧ u < (W : ℤ) ∧ 0 ≤ v ∧ v < (H : ℤ) ∧
       ox ≤ u ∧ u < ox + (g.gw : ℤ) ∧ oy ≤ v ∧ v < oy + (g.gh : ℤ) then
      blendPx (g.px (u - ox).toNat (v - oy).toNat) (surf u v)
    else surf u v

/-- `pygame.transform.scale(surf, (tw, th))` (external collaborator),
modelled as nearest sampling to the target size. -/
def scaleGlyph (g : Glyph) (tw th : Nat) : Glyph :=
  ⟨tw, th, fun i j => g.px (i * g.gw / tw) (j * g.gh / th)⟩

/-- `surf.set_alpha(a)` on a per-pixel-alpha glyph surface: subsequent blits
multiply each pixel alpha by `a/255`. -/
def setGlyphAlpha (g : Glyph) (a : Nat) : Glyph :=
  ⟨g.gw, g.gh, fun i j =>
    let p := g.px i j
    ⟨p.r, p.g, p.b, p.a * a / 255⟩⟩

/-- A Window: a rendering surface with its own cell grid and font.
`x, y` are root-cell coordinates, `width, height` are in this window's own
cells, `cellW, cellH` are this window's cell pixel size (font size times
scale, fixed at creation). -/
structure Window where
  name : String
  x : ℤ
  y : ℤ
  width : Nat
  height : Nat
  zIndex : ℤ
  alpha : Nat
  scale : ℚ
  visible : Bool
  bgColor : RGBA
  cellW : Nat
  cellH : Nat
  surface : ℤ → ℤ → RGBA

/-- Surface pixel width, `width * self._cell_width` from `Window.__init__`. -/
def Window.surfW (w : Window) : Nat := w.width * w.cellW

/-- Surface pixel height, `height * self._cell_height`. -/
def Window.surfH (w : Window) : Nat := w.height * w.cellH

/-- The glyph surface actually blitted by `put` / `_put_at_pixel`: rendered
at native size, rescaled to the window's cell size when `scale != 1.0`. -/
def Window.renderedGlyph (G : GlyphRenderer) (w : Window) (c : Char)
    (fg : RGB) : Glyph :=
  if w.scale = 1 then G c fg else scaleGlyph (G c fg) w.cellW w.cellH

/-- `Window.put(x, y, char, fg, bg)`: draw a character at cell `(x, y)`.
Out-of-grid coordinates return immediately; otherwise the cell background
rectangle is filled fully opaque when `bg` is given, and the rendered glyph
is blitted at `(x*cell_w, y*cell_h)`. -/
def Window.put (G : GlyphRenderer) (w : Window) (x y : ℤ) (c : Char)
    (fg : RGB) (bg : Option RGB) : Window :=
  if x < 0 ∨ (w.width : ℤ) ≤ x ∨ y < 0 ∨ (w.height : ℤ) ≤ y then w
  else
    let px := x * (w.cellW : ℤ)
    let py := y * (w.cellH : ℤ)
    let s1 := match bg with
      | some b => fillRect w.surface w.surfW w.surfH px py w.cellW w.cellH
          ⟨b.1, b.2.1, b.2.2, 255⟩
      | none => w.surface
    let g := w.renderedGlyph G c fg
    { w with surface := blitGlyph s1 w.surfW w.surfH px py g }

/-- The effective glyph surface blitted by `_put_at_pixel`: the rendered
(possibly rescaled) glyph with `set_alpha(alpha)` applied when
`alpha < 255`. -/
def Window.effGlyph (G : GlyphRenderer) (w : Window) (c : Char) (fg : RGB)
    (alpha : Nat) : Glyph :=
  let g := w.renderedGlyph G c fg
  if alpha < 255 then setGlyphAlpha g alpha else g

/-- `Window._put_at_pixel(px, py, char, fg, bg, alpha)`: draw a character
at exact (float) pixel coordinates.  The top-left corner is truncated with
`int()`; if it falls outside the surface extent the call returns without
drawing.  A given `bg` fills the cell rectangle (overwrite) with the color
`(bg.r, bg.g, bg.b, bg.a * alpha / 255)`, then the glyph is blitted with
`alpha` applied. -/
def Window.putAtPixel (G : GlyphRenderer) (w : Window) (px py : ℚ)
    (c : Char) (fg : RGB) (bg : Option RGBA) (alpha : Nat) : Window :=
  let pxi := pytrunc px
  let pyi := pytrunc py
  if pxi < 0 ∨ pyi < 0 ∨ (w.surfW : ℤ) ≤ pxi ∨ (w.surfH : ℤ) ≤ pyi then w
  else
    let s1 := match bg with
      | some b => fillRect w.surface w.surfW w.surfH pxi pyi w.cellW w.cellH
          ⟨b.r, b.g, b.b, b.a * alpha / 255⟩
      | none => w.surface
    let g := w.effGlyph G c fg alpha
    { w with surface := blitGlyph s1 w.surfW w.surfH pxi pyi g }

/-- The shared framebuffer (`_render_surface`), an opaque RGB surface. -/
abbrev FrameBuf := ℤ → ℤ → RGB

/-- Per-window alpha applied at composite time: `if window.alpha < 255:
window.surface.set_alpha(window.alpha)` scales each pixel's alpha. -/
def Window.effAlpha (w : Window) (a : Nat) : Nat :=
  if w.alpha < 255 then a * w.alpha / 255 else a

/-- Blit one window's surface onto the framebuffer at the pixel position
obtained from the window's root-cell position `(x, y)` and the ROOT
window's cell size `(rcw, rch)` (not the window's own cell size), with
per-window alpha applied; writes are clipped to the framebuffer extent
`[0,FW) × [0,FH)`. -/
def blitWindow (rcw rch FW FH : Nat) (fr : FrameBuf) (w : Window) :
    FrameBuf :=
  let px := w.x * (rcw : ℤ)
  let py := w.y * (rch : ℤ)
  fun u v =>
    if 0 ≤ u ∧ u < (FW : ℤ) ∧ 0 ≤ v ∧ v < (FH : ℤ) ∧
       px ≤ u ∧ u < px + (w.surfW : ℤ) ∧ py ≤ v ∧ v < py + (w.surfH : ℤ) then
      let s := w.surface (u - px) (v - py)
      let ea := w.effAlpha s.a
      (blendChannel s.r (fr u v).1 ea,
       blendChannel s.g (fr u v).2.1 ea,
       blendChannel s.b (fr u v).2.2 ea)
    else fr u v

/-- One iteration of the compositing loop body in `run`: windows whose
`visible` flag is false are skipped (`continue`), the rest are blitted. -/
def compositeStep (rcw rch FW FH : Nat) (fr : FrameBuf) (w : Window) :
    FrameBuf :=
  if w.visible then blitWindow rcw rch FW FH fr w else fr

/-- The sort key relation of `sorted(_windows.values(), key=lambda w:
w.z_index)`: ascending z_index. -/
def zOrder (a b : Window) : Prop := a.zIndex ≤ b.zIndex

instance : DecidableRel zOrder :=
  fun a b => inferInstanceAs (Decidable (a.zIndex ≤ b.zIndex))

instance : IsTotal Window zOrder := ⟨fun a b => le_total a.zIndex b.zIndex⟩

instance : IsTrans Window zOrder := ⟨fun _ _ _ h1 h2 => le_trans h1 h2⟩

/-- `sorted(_windows.values(), key=lambda w: w.z_index)`: a stable sort by
ascending z_index of the windows in registration order (Python's `sorted`
is stable; `List.insertionSort` is a stable sort for the same total
preorder). -/
def windowsByZ (ws : List Window) : List Window := List.insertionSort zOrder ws

/-- The per-frame compositing pass of `run`, after the render callback:
`_render_surface.fill((0,0,0))`, then every window, taken in ascending
z_index order (stable), is skipped when invisible and otherwise blitted at
`(window.x * _root_cell_width, window.y * _root_cell_height)`.
`ws` is the registry's registration order, `(rcw, rch)` the root cell
size, `(FW, FH)` the framebuffer extent. -/
def composite (rcw rch FW FH : Nat) (ws : List Window) : FrameBuf :=
  (windowsByZ ws).foldl (compositeStep rcw rch FW FH) (fun _ _ => (0, 0, 0))

/-- A single frame of a sprite animation: a 2D grid of characters plus
optional per-character color overrides (`None` = use the sprite default).
Per-character color lookups are modelled as functions from row and column
lists, exactly as stored. -/
structure SpriteFrame where
  chars : List (List Char)
  fgColors : Option (List (List (Option RGB)))
  bgColors : Option (List (List (Option RGBA)))
deriving DecidableEq

/-- `self.height = len(chars)` from `SpriteFrame.__init__`. -/
def SpriteFrame.height (f : SpriteFrame) : Nat := f.chars.length

/-- `self.width = len(chars[0]) if chars else 0`. -/
def SpriteFrame.width (f : SpriteFrame) : Nat :=
  match f.chars with
  | [] => 0
  | r :: _ => r.length

/-- A Sprite: a block of characters with an integer logical position and a
float visual position that interpolates toward it. -/
structure Sprite where
  frames : List SpriteFrame
  fg : RGB
  bg : Option RGBA
  origin : ℤ × ℤ
  currentFrame : Nat
  frameTimer : ℝ
  frameDuration : ℝ
  visible : Bool
  x : ℤ
  y : ℤ
  visualX : ℝ
  visualY : ℝ
  moveSpeed : ℝ

/-- `Sprite.__init__(frames, fg, bg, origin)`. -/
noncomputable def mkSprite (frames : List SpriteFrame) (fg : RGB)
    (bg : Option RGBA) (origin : ℤ × ℤ) : Sprite :=
  { frames := frames, fg := fg, bg := bg, origin := origin,
    currentFrame := 0, frameTimer := 0, frameDuration := 1 / 10,
    visible := true, x := 0, y := 0,
    visualX := 0, visualY := 0, moveSpeed := 0 }

/-- `Sprite.move_to(x, y)`: the logical position changes instantly. -/
def Sprite.moveTo (s : Sprite) (x y : ℤ) : Sprite := { s with x := x, y := y }

/-- `Sprite.update(dt, cell_width, cell_height)`: advance the visual
position toward the logical position in pixels.  `move_speed <= 0` snaps
instantly; otherwise the visual position moves toward the target by
`min(move_speed*cell_w*dt, distance)` along the straight line, snapping
exactly when the remaining distance is at most 0.5 px. -/
noncomputable def Sprite.update (s : Sprite) (dt cw ch : ℝ) : Sprite :=
  let targetPx : ℝ := (s.x : ℝ) * cw
  let targetPy : ℝ := (s.y : ℝ) * ch
  if s.moveSpeed ≤ 0 then { s with visualX := targetPx, visualY := targetPy }
  else
    let dx := targetPx - s.visualX
    let dy := targetPy - s.visualY
    let distance := Real.sqrt (dx * dx + dy * dy)
    if 1 / 2 < distance then
      let speedPx := s.moveSpeed * cw
      let moveDist := min (speedPx * dt) distance
      { s with visualX := s.visualX + dx / distance * moveDist,
               visualY := s.visualY + dy / distance * moveDist }
    else { s with visualX := targetPx, visualY := targetPy }

/-- Iterated fixed-step `Sprite.update` (n repeated frame updates). -/
noncomputable def Sprite.iterUpdate (s : Sprite) (dt cw ch : ℝ) : Nat → Sprite
  | 0 => s
  | n + 1 => Sprite.iterUpdate (s.update dt cw ch) dt cw ch n

/-- The Euclidean distance from the sprite's visual position to its pixel
target `(x*cell_w, y*cell_h)`, as computed inside `Sprite.update`. -/
noncomputable def Sprite.distToTarget (s : Sprite) (cw ch : ℝ) : ℝ :=
  let dx := (s.x : ℝ) * cw - s.visualX
  let dy := (s.y : ℝ) * ch - s.visualY
  Real.sqrt (dx * dx + dy * dy)

/-- An EffectSprite: a visual-only sprite with velocity, drag and fade. -/
structure EffectSprite where
  frames : List SpriteFrame
  fg : RGB
  bg : Option RGBA
  origin : ℤ × ℤ
  currentFrame : Nat
  visible : Bool
  alive : Bool
  x : ℝ
  y : ℝ
  vx : ℝ
  vy : ℝ
  drag : ℝ
  fadeTime : ℝ
  fadeElapsed : ℝ
  initialAlpha : Nat

/-- `EffectSprite.__init__(frames, fg, bg, origin)`. -/
noncomputable def mkEffectSprite (frames : List SpriteFrame) (fg : RGB)
    (bg : Option RGBA) (origin : ℤ × ℤ) : EffectSprite :=
  { frames := frames, fg := fg, bg := bg, origin := origin,
    currentFrame := 0, visible := true, alive := true,
    x := 0, y := 0, vx := 0, vy := 0, drag := 1,
    fadeTime := 0, fadeElapsed := 0, initialAlpha := 255 }

/-- `EffectSprite.update(dt, cell_width, cell_height)`: no-op when dead;
otherwise integrate velocity, apply exponential drag `drag ** dt` when
`0 < drag < 1`, and advance the fade clock, transitioning to not-alive and
not-visible once it reaches `fade_time`. -/
noncomputable def EffectSprite.update (s : EffectSprite) (dt cw ch : ℝ) :
    EffectSprite :=
  if s.alive then
    let s1 : EffectSprite := { s with x := s.x + s.vx * dt, y := s.y + s.vy * dt }
    let s2 : EffectSprite :=
      if s1.drag < 1 ∧ 0 < s1.drag then
        let decay := s1.drag ^ dt
        { s1 with vx := s1.vx * decay, vy := s1.vy * decay }
      else s1
    if 0 < s2.fadeTime then
      let fe := s2.fadeElapsed + dt
      if s2.fadeTime ≤ fe then
        { s2 with fadeElapsed := fe, alive := false, visible := false }
      else { s2 with fadeElapsed := fe }
    else s2
  else s

/-- A sequence of `EffectSprite.update` calls with the given step sizes. -/
noncomputable def EffectSprite.runUpdates (s : EffectSprite) (cw ch : ℝ)
    (dts : List ℝ) : EffectSprite :=
  dts.foldl (fun t dt => t.update dt cw ch) s

/-- A sprite owned by a Window's sprite list: either a regular `Sprite`
(which has no `alive` attribute) or an `EffectSprite`. -/
inductive AnySprite where
  | plain (s : Sprite)
  | effect (e : EffectSprite)

/-- `sprite.update(dt, self._cell_width, self._cell_height)` dispatched on
the sprite kind. -/
noncomputable def AnySprite.update (s : AnySprite) (dt cw ch : ℝ) : AnySprite :=
  match s with
  | .plain t => .plain (t.update dt cw ch)
  | .effect e => .effect (e.update dt cw ch)

/-- `hasattr(s, 'alive') and not s.alive`: true exactly for a dead
EffectSprite (a regular Sprite has no `alive` attribute). -/
def AnySprite.isDeadEffect : AnySprite → Bool
  | .plain _ => false
  | .effect e => !e.alive

/-- `Window.update_sprites(dt)`: update every owned sprite with this
window's cell size, then keep only the sprites that are not dead
EffectSprites. -/
noncomputable def updateSprites (l : List AnySprite) (dt cw ch : ℝ) :
    List AnySprite :=
  (l.map (fun s => s.update dt cw ch)).filter (fun s => !s.isDeadEffect)

/-- `pattern.split(chr(10))`: split a string (modelled as a character list)
into lines at newline characters; always returns at least one line. -/
def splitLines : List Char → List (List Char)
  | [] => [[]]
  | c :: rest =>
      match splitLines rest with
      | [] => [[]]
      | l :: ls => if c = '\n' then [] :: l :: ls else (c :: l) :: ls

/-- `not line.strip()`: a line is blank when it contains only whitespace. -/
def isBlankLine (l : List Char) : Bool := l.all (fun c => c.isWhitespace)

/-- `len(line) - len(line.lstrip())`: the leading-whitespace count. -/
def leadingWS (l : List Char) : Nat :=
  (l.takeWhile (fun c => c.isWhitespace)).length

/-- The two trimming loops of `create_sprite` / `create_effect`: pop blank
lines from the front, then from the back. -/
def trimBlankLines (ls : List (List Char)) : List (List Char) :=
  (((ls.dropWhile (fun l => isBlankLine l)).reverse.dropWhile
      (fun l => isBlankLine l)).reverse)

/-- `min_indent`: the minimum leading whitespace over the non-blank lines
(`float('inf')` mapped to 0 when there is no non-blank line). -/
def minIndentOf (ls : List (List Char)) : Nat :=
  match ((ls.filter (fun l => isBlankLine l = false)).map leadingWS).min? with
  | some m => m
  | none => 0

/-- `line = line[int(min_indent):] if len(line) >= min_indent else ''`. -/
def dedentLine (mi : Nat) (l : List Char) : List Char :=
  if mi ≤ l.length then l.drop mi else []

/-- The padding loop: `while len(row) < max_width: row.append(' ')`. -/
def padTo (wdt : Nat) (l : List Char) : List Char :=
  l ++ List.replicate (wdt - l.length) ' '

/-- The shared pattern-parsing logic of `create_sprite` and
`create_effect`: trim blank lines (returning `none` when nothing is left,
which the callers turn into the empty `SpriteFrame([[]])`), dedent by the
common indent, pad rows to the maximum width with the transparent space
character, and build the optional per-character foreground color grid. -/
def parseFrame (pattern : List Char) (charColors : Option (Char → Option RGB)) :
    Option SpriteFrame :=
  let lines := trimBlankLines (splitLines pattern)
  if lines.isEmpty then none
  else
    let mi := minIndentOf lines
    let rows := lines.map (dedentLine mi)
    let maxW := (rows.map List.length).foldr max 0
    let chars := rows.map (padTo maxW)
    let fgc : Option (List (List (Option RGB))) :=
      match charColors with
      | some cc => some (rows.map (fun r =>
          (r.map cc) ++ List.replicate (maxW - r.length) none))
      | none => none
    some ⟨chars, fgc, none⟩

/-- `create_sprite(pattern, fg, bg, char_colors)`: build a single-frame
sprite from a multi-line pattern (the all-blank pattern yields the special
`Sprite([SpriteFrame([[]])], fg, bg)`). -/
noncomputable def create_sprite (pattern : List Char) (fg : RGB)
    (bg : Option RGBA) (charColors : Option (Char → Option RGB)) : Sprite :=
  match parseFrame pattern charColors with
  | none => mkSprite [⟨[[]], none, none⟩] fg bg (0, 0)
  | some f => mkSprite [f] fg bg (0, 0)

/-- `create_effect(pattern, x, y, vx, vy, fg, bg, drag, fade_time,
char_colors)`: build an EffectSprite.  Note that the early-return branch
for an all-blank pattern sets only `x` and `y`, leaving velocity, drag and
fade at their defaults. -/
noncomputable def create_effect (pattern : List Char) (x y vx vy : ℝ)
    (fg : RGB) (bg : Option RGBA) (drag fadeTime : ℝ)
    (charColors : Option (Char → Option RGB)) : EffectSprite :=
  match parseFrame pattern charColors with
  | none => { mkEffectSprite [⟨[[]], none, none⟩] fg bg (0, 0) with
                x := x, y := y }
  | some f => { mkEffectSprite [f] fg bg (0, 0) with
                x := x, y := y, vx := vx, vy := vy,
                drag := drag, fadeTime := fadeTime }

/-- `'\n'.join(lines)` on the character-list model of strings. -/
def joinLines (ls : List (List Char)) : List Char :=
  List.intercalate ['\n'] ls

/-- Strip trailing space characters from one line (used to state the
round-trip property of pattern parsing). -/
def rstripSpaces (l : List Char) : List Char :=
  (l.reverse.dropWhile (fun c => c = ' ')).reverse

/-- The spec-side description of claim C7's round-trip target, following
the claim's words: "the input pattern with leading/trailing blank lines
trimmed and the common leading whitespace removed". -/
def trimmedDedented (pattern : List Char) : List Char :=
  let lines := trimBlankLines (splitLines pattern)
  joinLines (lines.map (List.drop (minIndentOf lines)))

/-- The grid side of claim C7's round-trip: the first frame's rows, each
joined into a string and stripped of trailing spaces, joined by newlines. -/
def gridRoundTrip (s : Sprite) : List Char :=
  joinLines (((s.frames.headD ⟨[[]], none, none⟩).chars).map rstripSpaces)

/-- `AVAILABLE_FONTS.keys()`: the bundled font names. -/
def AVAILABLE_FONTS : List String := ["6x13", "9x18", "10x20"]

/-- The module-level mutable state touched by window creation: the loaded
font cache (`_fonts`, by name), the measured cell sizes
(`_font_dimensions`), and the window registry (`_windows`, insertion
ordered). -/
structure GameState where
  fonts : List String
  fontDims : String → Option (Nat × Nat)
  windows : List (String × Window)

/-- The ValueError message of `_load_font` for an unknown font name,
listing the valid names. -/
def unknownFontMsg (name : String) : String :=
  "Unknown font: " ++ name ++ ". Available: [6x13, 9x18, 10x20]"

/-- `_load_font(font_name)`: return the cache unchanged on a hit, raise
ValueError for a name outside `AVAILABLE_FONTS` (before any mutation),
otherwise load the font and record its measured cell dimensions
(`measure` is the external render-and-measure collaborator).  Errors carry
the module state at raise time. -/
def loadFont (measure : String → Nat × Nat) (st : GameState) (name : String) :
    Except (String × GameState) GameState :=
  if name ∈ st.fonts then .ok st
  else if name ∉ AVAILABLE_FONTS then .error (unknownFontMsg name, st)
  else .ok { st with
    fonts := st.fonts ++ [name],
    fontDims := fun n => if n = name then some (measure name) else st.fontDims n }

/-- `int(value)` of a nonnegative rational scale product, as used for
`self._cell_width = int(self._cell_width * scale)`. -/
def ratTruncNat (q : ℚ) : Nat := (pytrunc q).toNat

/-- `Window.__init__`: load the font (possibly raising ValueError first),
look up its cell dimensions, apply the scale, and create the window with
its surface filled with the background color. -/
def windowNew (measure : String → Nat × Nat) (st : GameState) (name : String)
    (x y : ℤ) (width height : Nat) (zIndex : ℤ) (fontName : String)
    (scale : ℚ) (alpha : Nat) (bg : Option RGBA) :
    Except (String × GameState) (GameState × Window) :=
  match loadFont measure st fontName with
  | .error e => .error e
  | .ok st1 =>
    match st1.fontDims fontName with
    | none => .error ("KeyError: " ++ fontName, st1)
    | some (cw0, ch0) =>
      let cw := ratTruncNat ((cw0 : ℚ) * scale)
      let ch := ratTruncNat ((ch0 : ℚ) * scale)
      let bgc := bg.getD ⟨0, 0, 0, 0⟩
      .ok (st1,
        { name := name, x := x, y := y, width := width, height := height,
          zIndex := zIndex, alpha := alpha, scale := scale, visible := true,
          bgColor := bgc, cellW := cw, cellH := ch,
          surface := fun _ _ => bgc })

/-- `_windows[name] = window`: Python dict assignment preserves the
position of an existing key and appends a new one. -/
def insertReg (r : List (String × Window)) (k : String) (w : Window) :
    List (String × Window) :=
  if r.any (fun p => p.1 = k) then
    r.map (fun p => if p.1 = k then (k, w) else p)
  else r ++ [(k, w)]

/-- `create_window(name, x, y, width, height, z_index, font_name, scale,
alpha, bg)`: construct the Window (which may raise ValueError for an
unknown font) and only then assign it into the registry. -/
def createWindow (measure : String → Nat × Nat) (st : GameState)
    (name : String) (x y : ℤ) (width height : Nat) (zIndex : ℤ)
    (fontName : String) (scale : ℚ) (alpha : Nat) (bg : Option RGBA) :
    Except (String × GameState) (GameState × Window) :=
  match windowNew measure st name x y width height zIndex fontName scale
      alpha bg with
  | .error e => .error e
  | .ok (st1, w) => .ok ({ st1 with windows := insertReg st1.windows name w }, w)

/-! ### Helper lemmas -/

theorem blendChannel_opaque (s d : Nat) : blendChannel s d 255 = s := by
  simp [blendChannel]

theorem blendPx_transparentSrc (src dst : RGBA) (h : src.a = 0) :
    blendPx src dst = dst := by
  cases dst
  simp [blendPx, blendChannel, h]

theorem fillRect_outside (surf : ℤ → ℤ → RGBA) (W H : Nat) (rx ry : ℤ)
    (rw rh : Nat) (c : RGBA) (u v : ℤ)
    (h : u < 0 ∨ (W : ℤ) ≤ u ∨ v < 0 ∨ (H : ℤ) ≤ v) :
    fillRect surf W H rx ry rw rh c u v = surf u v := by
  unfold fillRect
  rw [if_neg]
  rintro ⟨h1, h2, h3, h4, -⟩
  rcases h with h | h | h | h <;> omega

theorem blitGlyph_outside (surf : ℤ → ℤ → RGBA) (W H : Nat) (ox oy : ℤ)
    (g : Glyph) (u v : ℤ)
    (h : u < 0 ∨ (W : ℤ) ≤ u ∨ v < 0 ∨ (H : ℤ) ≤ v) :
    blitGlyph surf W H ox oy g u v = surf u v := by
  unfold blitGlyph
  rw [if_neg]
  rintro ⟨h1, h2, h3, h4, -⟩
  rcases h with h | h | h | h <;> omega

/-! ### Claim C5 -/

/-- Claim C5: for every Window and every cell coordinate (x, y) with x < 0
or x ≥ width or y < 0 or y ≥ height, `put(x, y, char, fg, bg)` returns
without modifying the window's surface or any other observable state: the
out-of-bounds call is silently clipped and is never an error. -/
theorem c5 (G : GlyphRenderer) (w : Window) (x y : ℤ) (c : Char) (fg : RGB)
    (bg : Option RGB)
    (h : x < 0 ∨ (w.width : ℤ) ≤ x ∨ y < 0 ∨ (w.height : ℤ) ≤ y) :
    w.put G x y c fg bg = w := by
  unfold Window.put
  rw [if_pos h]

/-- A trivial glyph renderer used for concrete evaluation. -/
def rendererFlat : GlyphRenderer := fun _ _ => ⟨2, 2, fun _ _ => ⟨7, 7, 7, 255⟩⟩

/-- A concrete 2×1-cell window with 2×2-pixel cells. -/
def winPut : Window :=
  { name := "w", x := 0, y := 0, width := 2, height := 1, zIndex := 0,
    alpha := 255, scale := 1, visible := true, bgColor := ⟨0, 0, 0, 0⟩,
    cellW := 2, cellH := 2, surface := fun _ _ => ⟨0, 0, 0, 0⟩ }

theorem c5_witness :
    ((-1 : ℤ) < 0 ∨ (winPut.width : ℤ) ≤ -1 ∨ (0 : ℤ) < 0 ∨
      (winPut.height : ℤ) ≤ 0) ∧
    winPut.put rendererFlat (-1) 0 'a' (255, 255, 255) none = winPut :=
  ⟨Or.inl (by norm_num),
   c5 rendererFlat winPut (-1) 0 'a' (255, 255, 255) none
     (Or.inl (by norm_num))⟩

/-! ### Claim C8 -/

/-- Claim C8: `Window.update_sprites(dt)` first calls
`update(dt, cell_width, cell_height)` on every sprite in the list, then
removes exactly those sprites that have an `alive` attribute whose value is
False; a regular Sprite (which has no `alive` attribute) is never removed,
and the surviving sprites keep their relative order.  Stated as: the result
is a sublist (hence order-preserving) of the updated list; membership in
the result is exactly membership in the updated list minus the dead
EffectSprites; and a plain Sprite anywhere in the list survives in place. -/
theorem c8 :
    (∀ (l : List AnySprite) (dt cw ch : ℝ),
       List.Sublist (updateSprites l dt cw ch)
         (l.map (fun s => s.update dt cw ch)))
    ∧ (∀ (l : List AnySprite) (dt cw ch : ℝ) (s : AnySprite),
         s ∈ updateSprites l dt cw ch ↔
           s ∈ l.map (fun t => t.update dt cw ch) ∧ s.isDeadEffect = false)
    ∧ (∀ (l1 l2 : List AnySprite) (dt cw ch : ℝ) (s : Sprite),
         updateSprites (l1 ++ .plain s :: l2) dt cw ch =
           updateSprites l1 dt cw ch ++
             .plain (s.update dt cw ch) :: updateSprites l2 dt cw ch) := by
  refine ⟨fun l dt cw ch => List.filter_sublist _, fun l dt cw ch s => ?_,
    fun l1 l2 dt cw ch s => ?_⟩
  · simp [updateSprites, List.mem_filter]
  · simp [updateSprites, AnySprite.update, AnySprite.isDeadEffect]

/-! ### Claim C9 -/

/-- Claim C9: calling `create_window` with a `font_name` outside the
available-fonts table raises the ValueError listing the valid font names
during Window construction, before the registry assignment, so the windows
registry is unchanged on this failure (no entry added, none overwritten).
The error value carries the module state at raise time, which is exactly
the incoming state; the extra hypothesis is the module invariant that the
font cache only ever holds available fonts (`_load_font` is the only
writer and it rejects unknown names first). -/
theorem c9 (measure : String → Nat × Nat) (st : GameState) (name : String)
    (x y : ℤ) (width height : Nat) (zIndex : ℤ) (fontName : String)
    (scale : ℚ) (alpha : Nat) (bg : Option RGBA)
    (h1 : fontName ∉ AVAILABLE_FONTS)
    (h2 : ∀ f ∈ st.fonts, f ∈ AVAILABLE_FONTS) :
    createWindow measure st name x y width height zIndex fontName scale
        alpha bg = .error (unknownFontMsg fontName, st) := by
  have hmem : fontName ∉ st.fonts := fun hf => h1 (h2 _ hf)
  simp [createWindow, windowNew, loadFont, hmem, h1]

/-- An empty module state: no fonts loaded, no windows registered. -/
def stEmpty : GameState := ⟨[], fun _ => none, []⟩

theorem c9_witness :
    "8x8" ∉ AVAILABLE_FONTS ∧ (∀ f ∈ stEmpty.fonts, f ∈ AVAILABLE_FONTS) ∧
    createWindow (fun _ => (10, 20)) stEmpty "hud" 0 0 3 2 0 "8x8" 1 255 none
      = .error (unknownFontMsg "8x8", stEmpty) :=
  ⟨by decide, by simp [stEmpty],
   c9 (fun _ => (10, 20)) stEmpty "hud" 0 0 3 2 0 "8x8" 1 255 none
     (by decide) (by simp [stEmpty])⟩

/-! ### Claim C10 (corrected) -/

theorem pytrunc_neg_of_le_neg_one {q : ℚ} (h : q ≤ -1) : pytrunc q < 0 := by
  unfold pytrunc
  rw [if_neg (by linarith : ¬ (0 : ℚ) ≤ q)]
  have hc : ⌈q⌉ ≤ (-1 : ℤ) := Int.ceil_le.mpr (by exact_mod_cast h)
  omega

/-- Counterexample to claim C10 as stated: `_put_at_pixel` does NOT return
without drawing "whenever px or py is negative".  Python `int()` truncates
toward zero, so px = -1/2 truncates to 0, passes the bounds check, and the
glyph is drawn: the surface pixel at (0, 0) changes. -/
def winNeg : Window :=
  { name := "w", x := 0, y := 0, width := 2, height := 1, zIndex := 0,
    alpha := 255, scale := 1, visible := true, bgColor := ⟨0, 0, 0, 0⟩,
    cellW := 2, cellH := 2, surface := fun _ _ => ⟨0, 0, 0, 0⟩ }

/-- A glyph renderer whose glyphs are fully opaque white cells. -/
def rendererOpaque : GlyphRenderer :=
  fun _ _ => ⟨2, 2, fun _ _ => ⟨255, 255, 255, 255⟩⟩

/-- Counterexample for claim C10: at `px = -1/2 < 0`, `py = 0`,
`_put_at_pixel` draws (the surface changes at pixel (0,0)), because
`int(-1/2) = 0` is inside the surface extent; so "returns without drawing
anything ... whenever px or py is negative" is false. -/
theorem c10_cex :
    (-(1 : ℚ) / 2 < 0) ∧
    (winNeg.putAtPixel rendererOpaque (-(1 : ℚ) / 2) 0 'x' (255, 255, 255)
        none 255).surface 0 0 ≠ winNeg.surface 0 0 := by
  have hpx : pytrunc (-(1 : ℚ) / 2) = 0 := by
    unfold pytrunc
    rw [if_neg (by norm_num)]
    rw [Int.ceil_eq_iff]
    norm_num
  have hpy : pytrunc (0 : ℚ) = 0 := by
    unfold pytrunc
    rw [if_pos le_rfl]
    exact Int.floor_zero
  refine ⟨by norm_num, ?_⟩
  simp only [Window.putAtPixel, hpx, hpy]
  decide

/-- Claim C10, amended: `_put_at_pixel` returns without drawing anything
whenever the int()-truncated top-left position lies outside the surface
extent — in particular whenever px ≤ -1 or py ≤ -1 (truncation is toward
zero, so fractional positions in (-1, 0) truncate to 0 and are drawn) —
giving whole-cell clipping at the top and left edges, while pixels outside
the surface extent are never written (the blit clips at the right/bottom
edges). -/
theorem c10_thm :
    (∀ (G : GlyphRenderer) (w : Window) (px py : ℚ) (c : Char) (fg : RGB)
       (bg : Option RGBA) (alpha : Nat),
       (pytrunc px < 0 ∨ pytrunc py < 0 ∨ (w.surfW : ℤ) ≤ pytrunc px ∨
        (w.surfH : ℤ) ≤ pytrunc py) →
       w.putAtPixel G px py c fg bg alpha = w)
    ∧ (∀ (G : GlyphRenderer) (w : Window) (px py : ℚ) (c : Char) (fg : RGB)
         (bg : Option RGBA) (alpha : Nat),
         px ≤ -1 ∨ py ≤ -1 → w.putAtPixel G px py c fg bg alpha = w)
    ∧ (∀ (G : GlyphRenderer) (w : Window) (px py : ℚ) (c : Char) (fg : RGB)
         (bg : Option RGBA) (alpha : Nat) (u v : ℤ),
         (u < 0 ∨ (w.surfW : ℤ) ≤ u ∨ v < 0 ∨ (w.surfH : ℤ) ≤ v) →
         (w.putAtPixel G px py c fg bg alpha).surface u v = w.surface u v) := by
  refine ⟨fun G w px py c fg bg alpha h => ?_,
    fun G w px py c fg bg alpha h => ?_,
    fun G w px py c fg bg alpha u v h => ?_⟩
  · unfold Window.putAtPixel
    rw [if_pos h]
  · unfold Window.putAtPixel
    rw [if_pos]
    rcases h with h | h
    · exact Or.inl (pytrunc_neg_of_le_neg_one h)
    · exact Or.inr (Or.inl (pytrunc_neg_of_le_neg_one h))
  · by_cases hskip : (pytrunc px < 0 ∨ pytrunc py < 0 ∨
        (w.surfW : ℤ) ≤ pytrunc px ∨ (w.surfH : ℤ) ≤ pytrunc py)
    · simp only [Window.putAtPixel]
      rw [if_pos hskip]
    · simp only [Window.putAtPixel]
      rw [if_neg hskip]
      cases bg with
      | none =>
        show blitGlyph w.surface _ _ _ _ _ u v = _
        exact blitGlyph_outside _ _ _ _ _ _ _ _ h
      | some b =>
        show blitGlyph (fillRect w.surface _ _ _ _ _ _ _) _ _ _ _ _ u v = _
        rw [blitGlyph_outside _ _ _ _ _ _ _ _ h]
        exact fillRect_outside _ _ _ _ _ _ _ _ _ _ h

theorem c10_witness :
    (pytrunc (-3) < 0 ∨ pytrunc 0 < 0 ∨ (winNeg.surfW : ℤ) ≤ pytrunc (-3) ∨
      (winNeg.surfH : ℤ) ≤ pytrunc 0) ∧
    winNeg.putAtPixel rendererOpaque (-3) 0 'x' (255, 255, 255) none 255
      = winNeg :=
  ⟨Or.inl (pytrunc_neg_of_le_neg_one (by norm_num)),
   c10_thm.1 rendererOpaque winNeg (-3) 0 'x' (255, 255, 255) none 255
     (Or.inl (pytrunc_neg_of_le_neg_one (by norm_num)))⟩

/-! ### Claim C6 (corrected) -/

theorem pytrunc_zero : pytrunc (0 : ℚ) = 0 := by
  unfold pytrunc
  rw [if_pos le_rfl]
  exact Int.floor_zero

/-- A window whose surface starts fully opaque gray, for observing what a
`bg` draw does to prior surface contents. -/
def winBg : Window :=
  { name := "w", x := 0, y := 0, width := 2, height := 1, zIndex := 0,
    alpha := 255, scale := 1, visible := true, bgColor := ⟨0, 0, 0, 0⟩,
    cellW := 2, cellH := 2, surface := fun _ _ => ⟨100, 100, 100, 255⟩ }

/-- A glyph renderer whose glyphs are fully transparent, isolating the
effect of the `bg` fill inside `_put_at_pixel`. -/
def rendererClear : GlyphRenderer :=
  fun _ _ => ⟨2, 2, fun _ _ => ⟨5, 5, 5, 0⟩⟩

/-- Counterexample for claim C6: the bg rectangle of `_put_at_pixel` is NOT
alpha-blended onto the existing surface pixels.  With `bg = (10,20,30,0)`
(fully transparent) and `alpha = 255`, blending would leave the prior
opaque gray pixel unchanged, but the code's `surface.fill` overwrites it
with `(10, 20, 30, 0)`: the prior surface contents do not contribute. -/
theorem c6_cex :
    (winBg.putAtPixel rendererClear 0 0 'x' (255, 255, 255)
        (some ⟨10, 20, 30, 0⟩) 255).surface 0 0 ≠ winBg.surface 0 0 := by
  simp only [Window.putAtPixel, pytrunc_zero]
  decide

/-- Claim C6, amended: in `_put_at_pixel` with an in-bounds position and a
bg color given, the cell-sized background rectangle is OVERWRITTEN
(pygame `Surface.fill`, no blending) with the color
`(bg.r, bg.g, bg.b, int(bg.a * alpha / 255))` — bg's own alpha channel
scaled by alpha/255 is stored in the surface's alpha channel — and the
prior surface contents at that rectangle do not contribute: wherever the
subsequently blitted glyph is transparent (or outside the glyph extent),
the resulting pixel is exactly that color, independent of what the surface
held before. -/
theorem c6_thm (G : GlyphRenderer) (w : Window) (px py : ℚ) (c : Char)
    (fg : RGB) (b : RGBA) (alpha : Nat) (u v : ℤ)
    (hin : ¬(pytrunc px < 0 ∨ pytrunc py < 0 ∨ (w.surfW : ℤ) ≤ pytrunc px ∨
      (w.surfH : ℤ) ≤ pytrunc py))
    (hrect : 0 ≤ u ∧ u < (w.surfW : ℤ) ∧ 0 ≤ v ∧ v < (w.surfH : ℤ) ∧
      pytrunc px ≤ u ∧ u < pytrunc px + (w.cellW : ℤ) ∧
      pytrunc py ≤ v ∧ v < pytrunc py + (w.cellH : ℤ))
    (hg : pytrunc px + ((w.effGlyph G c fg alpha).gw : ℤ) ≤ u ∨
      pytrunc py + ((w.effGlyph G c fg alpha).gh : ℤ) ≤ v ∨
      ((w.effGlyph G c fg alpha).px (u - pytrunc px).toNat
        (v - pytrunc py).toNat).a = 0) :
    (w.putAtPixel G px py c fg (some b) alpha).surface u v =
      ⟨b.r, b.g, b.b, b.a * alpha / 255⟩ := by
  simp only [Window.putAtPixel]
  rw [if_neg hin]
  show blitGlyph (fillRect w.surface _ _ _ _ _ _ _) _ _ _ _ _ u v = _
  have hfill : fillRect w.surface w.surfW w.surfH (pytrunc px) (pytrunc py)
      w.cellW w.cellH ⟨b.r, b.g, b.b, b.a * alpha / 255⟩ u v =
      ⟨b.r, b.g, b.b, b.a * alpha / 255⟩ := by
    unfold fillRect
    rw [if_pos hrect]
  unfold blitGlyph
  split
  · rename_i hcov
    obtain ⟨-, -, -, -, -, h6, -, h8⟩ := hcov
    rcases hg with hga | hga | hga
    · omega
    · omega
    · rw [blendPx_transparentSrc _ _ hga, hfill]
  · exact hfill

theorem c6_witness :
    (¬(pytrunc (0 : ℚ) < 0 ∨ pytrunc (0 : ℚ) < 0 ∨
       (winBg.surfW : ℤ) ≤ pytrunc (0 : ℚ) ∨
       (winBg.surfH : ℤ) ≤ pytrunc (0 : ℚ))) ∧
    (((winBg.effGlyph rendererClear 'x' (255, 255, 255) 255).px
        ((0 - pytrunc (0 : ℚ)).toNat) ((0 - pytrunc (0 : ℚ)).toNat)).a = 0) ∧
    (winBg.putAtPixel rendererClear 0 0 'x' (255, 255, 255)
        (some ⟨10, 20, 30, 128⟩) 255).surface 0 0 = ⟨10, 20, 30, 128⟩ := by
  have h1 : ¬(pytrunc (0 : ℚ) < 0 ∨ pytrunc (0 : ℚ) < 0 ∨
      (winBg.surfW : ℤ) ≤ pytrunc (0 : ℚ) ∨
      (winBg.surfH : ℤ) ≤ pytrunc (0 : ℚ)) := by
    rw [pytrunc_zero]
    decide
  have h2 : ((winBg.effGlyph rendererClear 'x' (255, 255, 255) 255).px
      ((0 - pytrunc (0 : ℚ)).toNat) ((0 - pytrunc (0 : ℚ)).toNat)).a = 0 := by
    rw [pytrunc_zero]
    decide
  have h3 : (0 : ℤ) ≤ 0 ∧ (0 : ℤ) < (winBg.surfW : ℤ) ∧ (0 : ℤ) ≤ 0 ∧
      (0 : ℤ) < (winBg.surfH : ℤ) ∧ pytrunc (0 : ℚ) ≤ 0 ∧
      (0 : ℤ) < pytrunc (0 : ℚ) + (winBg.cellW : ℤ) ∧
      pytrunc (0 : ℚ) ≤ 0 ∧ (0 : ℤ) < pytrunc (0 : ℚ) + (winBg.cellH : ℤ) := by
    rw [pytrunc_zero]
    decide
  exact ⟨h1, h2,
    c6_thm rendererClear winBg 0 0 'x' (255, 255, 255) ⟨10, 20, 30, 128⟩ 255
      0 0 h1 h3 (Or.inr (Or.inr h2))⟩

/-! ### Claim C1 -/

/-- Claim C1: during each frame of `run`, after the render callback, the
compositor blits every visible Window onto the framebuffer in ascending
z_index order with a stable sort (equal z_index preserves registration
order), skips windows whose visible flag is false, and places each
window's top-left pixel at `(window.x * root_cell_width,
window.y * root_cell_height)` using the root window's cell size;
consequently, where two visible windows both wrote an opaque color at the
same framebuffer location, the pixels of the window with the higher
z_index (the later-registered one on ties) are the ones visible in the
final frame.  "Wrote an opaque color at the location" is: the location is
inside the window's blit rectangle and the window's effective source alpha
there (pixel alpha scaled by the per-window alpha) is 255. -/
theorem c1 :
    (∀ ws : List Window,
       (windowsByZ ws).Sorted zOrder ∧ (windowsByZ ws).Perm ws)
    ∧ (∀ (rcw rch FW FH : Nat) (fr : FrameBuf) (w : Window),
         w.visible = false → compositeStep rcw rch FW FH fr w = fr)
    ∧ (∀ (rcw rch FW FH : Nat) (fr : FrameBuf) (w : Window) (u v : ℤ),
         ¬(w.x * (rcw : ℤ) ≤ u ∧ u < w.x * (rcw : ℤ) + (w.surfW : ℤ) ∧
           w.y * (rch : ℤ) ≤ v ∧ v < w.y * (rch : ℤ) + (w.surfH : ℤ)) →
         blitWindow rcw rch FW FH fr w u v = fr u v)
    ∧ (∀ (rcw rch FW FH : Nat) (A B : Window) (u v : ℤ),
         A.visible = true → B.visible = true → A.zIndex ≤ B.zIndex →
         (0 ≤ u ∧ u < (FW : ℤ) ∧ 0 ≤ v ∧ v < (FH : ℤ)) →
         (A.x * (rcw : ℤ) ≤ u ∧ u < A.x * (rcw : ℤ) + (A.surfW : ℤ) ∧
          A.y * (rch : ℤ) ≤ v ∧ v < A.y * (rch : ℤ) + (A.surfH : ℤ)) →
         A.effAlpha ((A.surface (u - A.x * (rcw : ℤ))
           (v - A.y * (rch : ℤ))).a) = 255 →
         (B.x * (rcw : ℤ) ≤ u ∧ u < B.x * (rcw : ℤ) + (B.surfW : ℤ) ∧
          B.y * (rch : ℤ) ≤ v ∧ v < B.y * (rch : ℤ) + (B.surfH : ℤ)) →
         B.effAlpha ((B.surface (u - B.x * (rcw : ℤ))
           (v - B.y * (rch : ℤ))).a) = 255 →
         composite rcw rch FW FH [A, B] u v =
           ((B.surface (u - B.x * (rcw : ℤ)) (v - B.y * (rch : ℤ))).r,
            (B.surface (u - B.x * (rcw : ℤ)) (v - B.y * (rch : ℤ))).g,
            (B.surface (u - B.x * (rcw : ℤ)) (v - B.y * (rch : ℤ))).b)) := by
  refine ⟨fun ws => ⟨List.sorted_insertionSort zOrder ws,
      List.perm_insertionSort zOrder ws⟩,
    fun rcw rch FW FH fr w h => by simp [compositeStep, h],
    fun rcw rch FW FH fr w u v h => ?_,
    fun rcw rch FW FH A B u v hA hB hz hfr hArect hAop hBrect hBop => ?_⟩
  · simp only [blitWindow]
    rw [if_neg]
    rintro ⟨-, -, -, -, h5, h6, h7, h8⟩
    exact h ⟨h5, h6, h7, h8⟩
  · have hsort : windowsByZ [A, B] = [A, B] := by
      simp only [windowsByZ, List.insertionSort, List.orderedInsert]
      rw [if_pos (show zOrder A B from hz)]
    simp only [composite, hsort, List.foldl_cons, List.foldl_nil]
    simp only [compositeStep, hA, hB, if_true]
    simp only [blitWindow]
    rw [if_pos ⟨hfr.1, hfr.2.1, hfr.2.2.1, hfr.2.2.2, hBrect.1, hBrect.2.1,
      hBrect.2.2.1, hBrect.2.2.2⟩]
    simp only [hBop, blendChannel_opaque]

/-- A concrete lower window (z = 0) covered in opaque red. -/
def winLow : Window :=
  { name := "A", x := 0, y := 0, width := 1, height := 1, zIndex := 0,
    alpha := 255, scale := 1, visible := true, bgColor := ⟨0, 0, 0, 0⟩,
    cellW := 2, cellH := 2, surface := fun _ _ => ⟨200, 0, 0, 255⟩ }

/-- A concrete upper window (z = 1) covered in opaque blue. -/
def winHigh : Window :=
  { name := "B", x := 0, y := 0, width := 1, height := 1, zIndex := 1,
    alpha := 255, scale := 1, visible := true, bgColor := ⟨0, 0, 0, 0⟩,
    cellW := 2, cellH := 2, surface := fun _ _ => ⟨0, 0, 250, 255⟩ }

theorem c1_witness :
    winLow.visible = true ∧ winHigh.visible = true ∧
    winLow.zIndex ≤ winHigh.zIndex ∧
    winHigh.effAlpha ((winHigh.surface (1 - winHigh.x * (2 : ℤ))
      (1 - winHigh.y * (2 : ℤ))).a) = 255 ∧
    composite 2 2 4 4 [winLow, winHigh] 1 1 =
      ((winHigh.surface (1 - winHigh.x * (2 : ℤ)) (1 - winHigh.y * (2 : ℤ))).r,
       (winHigh.surface (1 - winHigh.x * (2 : ℤ)) (1 - winHigh.y * (2 : ℤ))).g,
       (winHigh.surface (1 - winHigh.x * (2 : ℤ)) (1 - winHigh.y * (2 : ℤ))).b) :=
  ⟨rfl, rfl, by decide, by decide,
   c1.2.2.2 2 2 4 4 winLow winHigh 1 1 rfl rfl (by decide) (by decide)
     (by decide) (by decide) (by decide) (by decide)⟩

/-! ### EffectSprite helper lemmas -/

theorem EffectSprite.update_dead (s : EffectSprite) (dt cw ch : ℝ)
    (h : s.alive = false) : s.update dt cw ch = s := by
  simp [EffectSprite.update, h]

theorem EffectSprite.runUpdates_dead (s : EffectSprite) (cw ch : ℝ)
    (dts : List ℝ) (h : s.alive = false) : s.runUpdates cw ch dts = s := by
  induction dts generalizing s with
  | nil => rfl
  | cons dt dts ih =>
    show (s.update dt cw ch).runUpdates cw ch dts = s
    rw [EffectSprite.update_dead s dt cw ch h]
    exact ih s h

theorem EffectSprite.alive_of_update_alive (s : EffectSprite) (dt cw ch : ℝ)
    (h : (s.update dt cw ch).alive = true) : s.alive = true := by
  cases ha : s.alive with
  | true => rfl
  | false =>
    rw [EffectSprite.update_dead s dt cw ch ha] at h
    rw [ha] at h
    exact h

theorem EffectSprite.update_drag_step (s : EffectSprite) (dt cw ch : ℝ)
    (h : s.alive = true) (h1 : 0 < s.drag) (h2 : s.drag < 1) :
    (s.update dt cw ch).vx = s.vx * s.drag ^ dt ∧
    (s.update dt cw ch).vy = s.vy * s.drag ^ dt ∧
    (s.update dt cw ch).drag = s.drag := by
  simp only [EffectSprite.update, h, if_true]
  rw [if_pos (And.intro h2 h1)]
  split
  · split
    · exact ⟨rfl, rfl, rfl⟩
    · exact ⟨rfl, rfl, rfl⟩
  · exact ⟨rfl, rfl, rfl⟩

theorem EffectSprite.update_noFade (s : EffectSprite) (dt cw ch : ℝ)
    (h : s.alive = true) (hf : s.fadeTime = 0) :
    (s.update dt cw ch).alive = true ∧ (s.update dt cw ch).fadeTime = 0 := by
  simp [EffectSprite.update, h, hf, apply_ite EffectSprite.fadeTime,
    apply_ite EffectSprite.alive]

/-! ### Claim C4 -/

/-- Claim C4: an EffectSprite with fade_time > 0 is created alive and
visible; on the first update at which the accumulated time
(`_fade_elapsed + dt`) reaches or exceeds `fade_time`, both `alive` and
`visible` become False (and before that point it stays alive); once dead,
every subsequent update call is a no-op (the whole state is unchanged — a
dead EffectSprite is never resurrected); and the owning Window's next
`update_sprites` pass removes it from the sprite list. -/
theorem c4 :
    (∀ (pattern : List Char) (x y vx vy : ℝ) (fg : RGB) (bg : Option RGBA)
       (drag ft : ℝ) (cc : Option (Char → Option RGB)),
       (create_effect pattern x y vx vy fg bg drag ft cc).alive = true ∧
       (create_effect pattern x y vx vy fg bg drag ft cc).visible = true)
    ∧ (∀ (e : EffectSprite) (dt cw ch : ℝ), e.alive = true →
         0 < e.fadeTime → e.fadeTime ≤ e.fadeElapsed + dt →
         (e.update dt cw ch).alive = false ∧
         (e.update dt cw ch).visible = false)
    ∧ (∀ (e : EffectSprite) (dt cw ch : ℝ), e.alive = true →
         0 < e.fadeTime → e.fadeElapsed + dt < e.fadeTime →
         (e.update dt cw ch).alive = true ∧
         (e.update dt cw ch).visible = e.visible)
    ∧ (∀ (e : EffectSprite) (cw ch : ℝ) (dts : List ℝ), e.alive = false →
         e.runUpdates cw ch dts = e)
    ∧ (∀ (l1 l2 : List AnySprite) (e : EffectSprite) (dt cw ch : ℝ),
         e.alive = false →
         updateSprites (l1 ++ .effect e :: l2) dt cw ch =
           updateSprites l1 dt cw ch ++ updateSprites l2 dt cw ch) := by
  refine ⟨fun pattern x y vx vy fg bg drag ft cc => ?_,
    fun e dt cw ch h hft hfe => ?_, fun e dt cw ch h hft hfe => ?_,
    fun e cw ch dts h => EffectSprite.runUpdates_dead e cw ch dts h,
    fun l1 l2 e dt cw ch h => ?_⟩
  · cases hp : parseFrame pattern cc <;>
      simp [create_effect, mkEffectSprite, hp]
  · simp [EffectSprite.update, h, hft, hfe,
      apply_ite EffectSprite.fadeTime, apply_ite EffectSprite.fadeElapsed,
      apply_ite EffectSprite.alive, apply_ite EffectSprite.visible]
  · simp [EffectSprite.update, h, hft, not_le.mpr hfe,
      apply_ite EffectSprite.fadeTime, apply_ite EffectSprite.fadeElapsed,
      apply_ite EffectSprite.alive, apply_ite EffectSprite.visible]
  · simp [updateSprites, List.filter_append, AnySprite.update,
      EffectSprite.update_dead e dt cw ch h, AnySprite.isDeadEffect, h]

/-- A concrete alive EffectSprite one update away from fading out. -/
noncomputable def effKill : EffectSprite :=
  { frames := [], fg := (255, 255, 255), bg := none, origin := (0, 0),
    currentFrame := 0, visible := true, alive := true, x := 0, y := 0,
    vx := 0, vy := 0, drag := 1, fadeTime := 1, fadeElapsed := 0,
    initialAlpha := 255 }

theorem c4_witness :
    effKill.alive = true ∧ (0 : ℝ) < effKill.fadeTime ∧
    effKill.fadeTime ≤ effKill.fadeElapsed + 1 ∧
    ((effKill.update 1 1 1).alive = false ∧
     (effKill.update 1 1 1).visible = false) :=
  ⟨rfl, by norm_num [effKill], by norm_num [effKill],
   c4.2.1 effKill 1 1 1 rfl (by norm_num [effKill]) (by norm_num [effKill])⟩

/-! ### Claim C2 -/

/-- Induction core of the drag decay law: over any step list through which
the sprite ends up alive, the velocity picks up a factor of
`drag ^ (sum of the steps)`. -/
theorem dragDecayAux (cw ch : ℝ) : ∀ (dts : List ℝ) (s : EffectSprite),
    0 < s.drag → s.drag < 1 → (s.runUpdates cw ch dts).alive = true →
    (s.runUpdates cw ch dts).vx = s.vx * s.drag ^ dts.sum ∧
    (s.runUpdates cw ch dts).vy = s.vy * s.drag ^ dts.sum := by
  intro dts
  induction dts with
  | nil =>
    intro s h1 h2 h4
    simp [EffectSprite.runUpdates, Real.rpow_zero]
  | cons dt dts ih =>
    intro s h1 h2 h4
    have hstep : s.runUpdates cw ch (dt :: dts) =
        (s.update dt cw ch).runUpdates cw ch dts := rfl
    rw [hstep] at h4 ⊢
    have hsa : s.alive = true := by
      by_contra hna
      have ha : s.alive = false := by
        cases hb : s.alive
        · rfl
        · exact absurd hb hna
      rw [EffectSprite.update_dead s dt cw ch ha,
        EffectSprite.runUpdates_dead s cw ch dts ha, ha] at h4
      exact absurd h4 (by simp)
    obtain ⟨hvx, hvy, hdrag⟩ :=
      EffectSprite.update_drag_step s dt cw ch hsa h1 h2
    have ih' := ih (s.update dt cw ch) (by rw [hdrag]; exact h1)
      (by rw [hdrag]; exact h2) h4
    constructor
    · rw [ih'.1, hvx, hdrag, List.sum_cons, Real.rpow_add h1, mul_assoc]
    · rw [ih'.2, hvy, hdrag, List.sum_cons, Real.rpow_add h1, mul_assoc]

/-- Claim C2: for every EffectSprite with 0 < drag < 1 that stays alive
through a finite sequence of update calls with positive step sizes, the
resulting velocity equals the initial velocity componentwise multiplied by
`drag ** T` where `T` is the sum of the steps — independent of how `T` is
split into steps (exact over the real-number model of the float
arithmetic).  "Stays alive" is the hypothesis that the final state is
alive (death is permanent, so this forces every intermediate state to be
alive). -/
theorem c2 (s : EffectSprite) (cw ch : ℝ) (dts : List ℝ)
    (h1 : 0 < s.drag) (h2 : s.drag < 1) (h3 : ∀ dt ∈ dts, 0 < dt)
    (h4 : (s.runUpdates cw ch dts).alive = true) :
    (s.runUpdates cw ch dts).vx = s.vx * s.drag ^ dts.sum ∧
    (s.runUpdates cw ch dts).vy = s.vy * s.drag ^ dts.sum :=
  dragDecayAux cw ch dts s h1 h2 h4

/-- A concrete EffectSprite with drag 1/2, no fade, velocity (8, 4). -/
noncomputable def esDrag : EffectSprite :=
  { frames := [], fg := (255, 255, 255), bg := none, origin := (0, 0),
    currentFrame := 0, visible := true, alive := true, x := 0, y := 0,
    vx := 8, vy := 4, drag := 1 / 2, fadeTime := 0, fadeElapsed := 0,
    initialAlpha := 255 }

theorem c2_witness :
    0 < esDrag.drag ∧ esDrag.drag < 1 ∧ (∀ dt ∈ [(1 : ℝ), 1], 0 < dt) ∧
    (esDrag.runUpdates 1 1 [1, 1]).alive = true ∧
    (esDrag.runUpdates 1 1 [1, 1]).vx =
      esDrag.vx * esDrag.drag ^ ([(1 : ℝ), 1].sum) := by
  have h1 : 0 < esDrag.drag := by norm_num [esDrag]
  have h2 : esDrag.drag < 1 := by norm_num [esDrag]
  have h3 : ∀ dt ∈ [(1 : ℝ), 1], 0 < dt := by norm_num
  have ha0 : esDrag.alive = true := rfl
  have hf0 : esDrag.fadeTime = 0 := rfl
  have hs1 := EffectSprite.update_noFade esDrag 1 1 1 ha0 hf0
  have hs2 := EffectSprite.update_noFade (esDrag.update 1 1 1) 1 1 1
    hs1.1 hs1.2
  have h4 : (esDrag.runUpdates 1 1 [1, 1]).alive = true := hs2.1
  exact ⟨h1, h2, h3, h4, (c2 esDrag 1 1 [1, 1] h1 h2 h3 h4).1⟩

/-! ### Sprite helper lemmas -/

theorem Sprite.update_keeps (s : Sprite) (dt cw ch : ℝ) :
    (s.update dt cw ch).x = s.x ∧ (s.update dt cw ch).y = s.y ∧
    (s.update dt cw ch).moveSpeed = s.moveSpeed := by
  unfold Sprite.update
  split
  · exact ⟨rfl, rfl, rfl⟩
  · dsimp only
    split
    · exact ⟨rfl, rfl, rfl⟩
    · exact ⟨rfl, rfl, rfl⟩

/-- In the far branch (`move_speed > 0` and distance above the 0.5 px
threshold) the update is exactly the capped straight-line step. -/
theorem Sprite.update_far_explicit (s : Sprite) (dt cw ch : ℝ)
    (hms : 0 < s.moveSpeed)
    (hD : 1 / 2 < Real.sqrt
      (((s.x : ℝ) * cw - s.visualX) * ((s.x : ℝ) * cw - s.visualX) +
       ((s.y : ℝ) * ch - s.visualY) * ((s.y : ℝ) * ch - s.visualY))) :
    s.update dt cw ch = { s with
      visualX := s.visualX + ((s.x : ℝ) * cw - s.visualX) /
        Real.sqrt
          (((s.x : ℝ) * cw - s.visualX) * ((s.x : ℝ) * cw - s.visualX) +
           ((s.y : ℝ) * ch - s.visualY) * ((s.y : ℝ) * ch - s.visualY)) *
        min (s.moveSpeed * cw * dt)
          (Real.sqrt
            (((s.x : ℝ) * cw - s.visualX) * ((s.x : ℝ) * cw - s.visualX) +
             ((s.y : ℝ) * ch - s.visualY) * ((s.y : ℝ) * ch - s.visualY))),
      visualY := s.visualY + ((s.y : ℝ) * ch - s.visualY) /
        Real.sqrt
          (((s.x : ℝ) * cw - s.visualX) * ((s.x : ℝ) * cw - s.visualX) +
           ((s.y : ℝ) * ch - s.visualY) * ((s.y : ℝ) * ch - s.visualY)) *
        min (s.moveSpeed * cw * dt)
          (Real.sqrt
            (((s.x : ℝ) * cw - s.visualX) * ((s.x : ℝ) * cw - s.visualX) +
             ((s.y : ℝ) * ch - s.visualY) * ((s.y : ℝ) * ch - s.visualY))) } := by
  simp only [Sprite.update]
  rw [if_neg (not_le.mpr hms), if_pos hD]

theorem Sprite.update_snap (s : Sprite) (dt cw ch : ℝ)
    (hms : 0 < s.moveSpeed) (hD : s.distToTarget cw ch ≤ 1 / 2) :
    (s.update dt cw ch).visualX = (s.x : ℝ) * cw ∧
    (s.update dt cw ch).visualY = (s.y : ℝ) * ch := by
  simp only [Sprite.update]
  rw [if_neg (not_le.mpr hms)]
  split
  · rename_i hgt
    exact absurd hgt (not_lt.mpr hD)
  · exact ⟨rfl, rfl⟩

theorem Sprite.dist_at_target (s : Sprite) (cw ch : ℝ)
    (h1 : s.visualX = (s.x : ℝ) * cw) (h2 : s.visualY = (s.y : ℝ) * ch) :
    s.distToTarget cw ch = 0 := by
  simp only [Sprite.distToTarget]
  rw [h1, h2]
  simp

/-- Algebra core of the convergence claim: moving from distance `D` along
the unit direction by `m ≤ D` leaves Euclidean distance `D - m`. -/
theorem sqrtStepAux (dx dy m D : ℝ) (hDdef : D = Real.sqrt (dx * dx + dy * dy))
    (hD0 : 0 < D) (hm : m ≤ D) :
    Real.sqrt ((dx - dx / D * m) * (dx - dx / D * m) +
      (dy - dy / D * m) * (dy - dy / D * m)) = D - m := by
  have hc : 0 ≤ 1 - m / D := by
    have h := (div_le_one hD0).mpr hm
    linarith
  have e3 : (dx - dx / D * m) * (dx - dx / D * m) +
      (dy - dy / D * m) * (dy - dy / D * m) =
      (1 - m / D) ^ 2 * (dx * dx + dy * dy) := by ring
  rw [e3, Real.sqrt_mul (sq_nonneg _) _, Real.sqrt_sq hc, ← hDdef]
  rw [sub_mul, one_mul, div_mul_cancel₀ _ (ne_of_gt hD0)]

theorem Sprite.dist_after_far (s : Sprite) (dt cw ch : ℝ)
    (hms : 0 < s.moveSpeed) (hD : 1 / 2 < s.distToTarget cw ch) :
    (s.update dt cw ch).distToTarget cw ch =
      s.distToTarget cw ch -
        min (s.moveSpeed * cw * dt) (s.distToTarget cw ch) := by
  have hD0 : 0 < s.distToTarget cw ch := lt_trans (by norm_num) hD
  have hfar := Sprite.update_far_explicit s dt cw ch hms hD
  have key := sqrtStepAux ((s.x : ℝ) * cw - s.visualX)
    ((s.y : ℝ) * ch - s.visualY)
    (min (s.moveSpeed * cw * dt) (s.distToTarget cw ch))
    (s.distToTarget cw ch) rfl hD0 (min_le_right _ _)
  rw [hfar]
  simp only [Sprite.distToTarget] at key ⊢
  convert key using 2
  ring

/-- Termination core: from distance at most `k * step + 1/2`, the sprite's
visual position reaches the pixel target exactly within `k + 1` fixed-dt
updates. -/
theorem Sprite.reach_target (dt cw ch : ℝ) (hdt : 0 < dt) (hcw : 0 < cw) :
    ∀ (k : ℕ) (s : Sprite), 0 < s.moveSpeed →
      s.distToTarget cw ch ≤ k * (s.moveSpeed * cw * dt) + 1 / 2 →
      (s.iterUpdate dt cw ch (k + 1)).visualX = (s.x : ℝ) * cw ∧
      (s.iterUpdate dt cw ch (k + 1)).visualY = (s.y : ℝ) * ch := by
  intro k
  induction k with
  | zero =>
    intro s hms hk
    have hD : s.distToTarget cw ch ≤ 1 / 2 := by
      push_cast at hk
      linarith
    exact Sprite.update_snap s dt cw ch hms hD
  | succ k ih =>
    intro s hms hk
    obtain ⟨hx, hy, hm⟩ := Sprite.update_keeps s dt cw ch
    have hstep : 0 < s.moveSpeed * cw * dt := mul_pos (mul_pos hms hcw) hdt
    by_cases hD : s.distToTarget cw ch ≤ 1 / 2
    · have hsnap := Sprite.update_snap s dt cw ch hms hD
      have hDz : (s.update dt cw ch).distToTarget cw ch = 0 :=
        Sprite.dist_at_target _ cw ch (by rw [hsnap.1, hx])
          (by rw [hsnap.2, hy])
      have hb : (s.update dt cw ch).distToTarget cw ch ≤
          k * ((s.update dt cw ch).moveSpeed * cw * dt) + 1 / 2 := by
        rw [hDz, hm]
        have h0 : 0 ≤ (k : ℝ) * (s.moveSpeed * cw * dt) :=
          mul_nonneg (Nat.cast_nonneg k) hstep.le
        linarith
      have happ := ih (s.update dt cw ch) (by rw [hm]; exact hms) hb
      constructor
      · show (Sprite.iterUpdate (s.update dt cw ch) dt cw ch (k + 1)).visualX = _
        rw [happ.1, hx]
      · show (Sprite.iterUpdate (s.update dt cw ch) dt cw ch (k + 1)).visualY = _
        rw [happ.2, hy]
    · push_neg at hD
      have hde := Sprite.dist_after_far s dt cw ch hms hD
      have hb : (s.update dt cw ch).distToTarget cw ch ≤
          k * ((s.update dt cw ch).moveSpeed * cw * dt) + 1 / 2 := by
        rw [hde, hm]
        rcases le_total (s.moveSpeed * cw * dt) (s.distToTarget cw ch) with
          hle | hle
        · rw [min_eq_left hle]
          push_cast at hk
          linarith
        · rw [min_eq_right hle]
          have h0 : 0 ≤ (k : ℝ) * (s.moveSpeed * cw * dt) :=
            mul_nonneg (Nat.cast_nonneg k) hstep.le
          linarith
      have happ := ih (s.update dt cw ch) (by rw [hm]; exact hms) hb
      constructor
      · show (Sprite.iterUpdate (s.update dt cw ch) dt cw ch (k + 1)).visualX = _
        rw [happ.1, hx]
      · show (Sprite.iterUpdate (s.update dt cw ch) dt cw ch (k + 1)).visualY = _
        rw [happ.2, hy]

/-! ### Claim C3 -/

/-- Claim C3: for every Sprite with move_speed > 0, each
`update(dt, cell_w, cell_h)` call with dt > 0 (and positive cell width)
strictly decreases the Euclidean distance from the visual position to the
pixel target `(x*cell_w, y*cell_h)` while that distance exceeds the 0.5 px
threshold — the new distance is exactly the old one minus
`min(move_speed*cell_w*dt, distance)`, so the step is capped and never
overshoots, and the visual position moves along the straight line toward
the target (a convex combination) — once the distance is at most 0.5 px
the visual position is set exactly to the target, and the target is
reached exactly in finitely many fixed-dt steps. -/
theorem c3 :
    (∀ (s : Sprite) (dt cw ch : ℝ), 0 < s.moveSpeed → 0 < dt → 0 < cw →
       1 / 2 < s.distToTarget cw ch →
       (s.update dt cw ch).distToTarget cw ch =
           s.distToTarget cw ch -
             min (s.moveSpeed * cw * dt) (s.distToTarget cw ch) ∧
       (s.update dt cw ch).distToTarget cw ch < s.distToTarget cw ch ∧
       (∃ t : ℝ, 0 ≤ t ∧ t ≤ 1 ∧
         (s.update dt cw ch).visualX =
           s.visualX + t * ((s.x : ℝ) * cw - s.visualX) ∧
         (s.update dt cw ch).visualY =
           s.visualY + t * ((s.y : ℝ) * ch - s.visualY)))
    ∧ (∀ (s : Sprite) (dt cw ch : ℝ), 0 < s.moveSpeed →
         s.distToTarget cw ch ≤ 1 / 2 →
         (s.update dt cw ch).visualX = (s.x : ℝ) * cw ∧
         (s.update dt cw ch).visualY = (s.y : ℝ) * ch)
    ∧ (∀ (s : Sprite) (dt cw ch : ℝ), 0 < s.moveSpeed → 0 < dt → 0 < cw →
         ∃ n : ℕ, (s.iterUpdate dt cw ch n).visualX = (s.x : ℝ) * cw ∧
                  (s.iterUpdate dt cw ch n).visualY = (s.y : ℝ) * ch) := by
  refine ⟨fun s dt cw ch hms hdt hcw hD => ?_,
    fun s dt cw ch hms hD => Sprite.update_snap s dt cw ch hms hD,
    fun s dt cw ch hms hdt hcw => ?_⟩
  · have hD0 : 0 < s.distToTarget cw ch := lt_trans (by norm_num) hD
    have hde := Sprite.dist_after_far s dt cw ch hms hD
    have hstep : 0 < s.moveSpeed * cw * dt := mul_pos (mul_pos hms hcw) hdt
    have hmpos : 0 < min (s.moveSpeed * cw * dt) (s.distToTarget cw ch) :=
      lt_min hstep hD0
    have hfar := Sprite.update_far_explicit s dt cw ch hms hD
    refine ⟨hde, by rw [hde]; linarith, ?_⟩
    refine ⟨min (s.moveSpeed * cw * dt) (s.distToTarget cw ch) /
        s.distToTarget cw ch,
      div_nonneg hmpos.le hD0.le,
      (div_le_one hD0).mpr (min_le_right _ _), ?_, ?_⟩
    · rw [hfar]
      simp only [Sprite.distToTarget]
      ring
    · rw [hfar]
      simp only [Sprite.distToTarget]
      ring
  · obtain ⟨k, hk⟩ :=
      exists_nat_ge (s.distToTarget cw ch / (s.moveSpeed * cw * dt))
    have hstep : 0 < s.moveSpeed * cw * dt := mul_pos (mul_pos hms hcw) hdt
    have hbound : s.distToTarget cw ch ≤
        k * (s.moveSpeed * cw * dt) + 1 / 2 := by
      have h := (div_le_iff₀ hstep).mp hk
      linarith
    obtain ⟨h1, h2⟩ := Sprite.reach_target dt cw ch hdt hcw k s hms hbound
    exact ⟨k + 1, h1, h2⟩

/-- A concrete sprite 5 cells left of its logical target, speed 1 cell/s. -/
noncomputable def sprMove : Sprite :=
  { frames := [], fg := (255, 255, 255), bg := none, origin := (0, 0),
    currentFrame := 0, frameTimer := 0, frameDuration := 1 / 10,
    visible := true, x := 5, y := 0, visualX := 0, visualY := 0,
    moveSpeed := 1 }

theorem c3_witness :
    0 < sprMove.moveSpeed ∧ (0 : ℝ) < 1 ∧
    (∃ n : ℕ, (sprMove.iterUpdate 1 1 1 n).visualX = (sprMove.x : ℝ) * 1 ∧
              (sprMove.iterUpdate 1 1 1 n).visualY = (sprMove.y : ℝ) * 1) :=
  ⟨by norm_num [sprMove], by norm_num,
   c3.2.2 sprMove 1 1 1 (by norm_num [sprMove]) (by norm_num) (by norm_num)⟩

/-! ### Pattern parsing helper lemmas (claim C7) -/

/-- The intermediate `rows` of the parser: trimmed lines dedented by the
common indent. -/
def parsedRows (pattern : List Char) : List (List Char) :=
  (trimBlankLines (splitLines pattern)).map
    (dedentLine (minIndentOf (trimBlankLines (splitLines pattern))))

/-- The parser's `max_width` over the dedented rows. -/
def parsedMaxW (pattern : List Char) : Nat :=
  ((parsedRows pattern).map List.length).foldr max 0

/-- The parser's final `chars` grid: rows padded to the maximum width. -/
def parsedChars (pattern : List Char) : List (List Char) :=
  (parsedRows pattern).map (padTo (parsedMaxW pattern))

theorem le_foldr_max (n : Nat) (ns : List Nat) (h : n ∈ ns) :
    n ≤ ns.foldr max 0 := by
  induction ns with
  | nil => cases h
  | cons a t ih =>
    rcases List.mem_cons.mp h with rfl | hm
    · exact le_max_left _ _
    · exact le_trans (ih hm) (le_max_right _ _)

theorem padTo_length (wdt : Nat) (r : List Char) (hle : r.length ≤ wdt) :
    (padTo wdt r).length = wdt := by
  simp [padTo]
  omega

theorem rstrip_pad (r : List Char) (k : Nat) :
    rstripSpaces (r ++ List.replicate k ' ') = rstripSpaces r := by
  unfold rstripSpaces
  rw [List.reverse_append, List.reverse_replicate]
  congr 1
  induction k with
  | zero => simp
  | succ k ih => simpa [List.replicate_succ, List.dropWhile_cons] using ih

theorem rstrip_padTo (wdt : Nat) (r : List Char) :
    rstripSpaces (padTo wdt r) = rstripSpaces r :=
  rstrip_pad r _

theorem dedent_eq_drop (mi : Nat) (l : List Char) :
    dedentLine mi l = l.drop mi := by
  unfold dedentLine
  split
  · rfl
  · rename_i h
    exact (List.drop_eq_nil_of_le (by omega)).symm

theorem parseFrame_eq_some (pattern : List Char)
    (cc : Option (Char → Option RGB))
    (he : (trimBlankLines (splitLines pattern)).isEmpty = false) :
    parseFrame pattern cc = some ⟨parsedChars pattern,
      match cc with
      | some cmap => some ((parsedRows pattern).map (fun r =>
          (r.map cmap) ++
            List.replicate (parsedMaxW pattern - r.length) none))
      | none => none, none⟩ := by
  simp only [parseFrame, he, Bool.false_eq_true, if_false]
  rfl

/-! ### Claim C7 (corrected) -/

/-- Counterexample input for claim C7 as stated: the first line carries a
trailing space ("a ", then "b"); indentation is uniform (0) and there is
no trailing blank line, yet re-joining the parsed grid with trailing
spaces stripped loses that trailing space, while the trimmed, dedented
input keeps it. -/
def patternTrailing : List Char := ['a', ' ', '\n', 'b']

/-- Counterexample for claim C7: for the pattern "a \nb" (uniform
indentation, no trailing blank lines) the round-trip — rows joined,
trailing spaces stripped, joined with newlines — is "a\nb", which differs
from the input pattern with blank lines trimmed and the common leading
whitespace removed ("a \nb"): the claimed equality fails whenever a line
has trailing whitespace. -/
theorem c7_cex :
    (∀ l1 ∈ (splitLines patternTrailing).filter
        (fun l => isBlankLine l = false),
     ∀ l2 ∈ (splitLines patternTrailing).filter
        (fun l => isBlankLine l = false),
     leadingWS l1 = leadingWS l2) ∧
    (∀ l, (splitLines patternTrailing).getLast? = some l →
      isBlankLine l = false) ∧
    gridRoundTrip (create_sprite patternTrailing (255, 255, 255) none none)
      ≠ trimmedDedented patternTrailing := by
  refine ⟨by decide, by decide, by decide⟩

/-- Claim C7, amended: for every pattern string whose non-blank lines share
a uniform indentation and that has no trailing blank lines,
`create_sprite(pattern)` produces a Sprite with exactly one SpriteFrame
whose chars grid has all rows of equal width (shorter rows padded with
spaces) and whose content round-trips up to per-line trailing spaces:
joining each row into a string, stripping trailing spaces, and joining the
rows with newlines yields the input pattern with leading/trailing blank
lines trimmed, the common leading whitespace removed, AND trailing spaces
stripped from each line (the parser cannot distinguish original trailing
spaces from padding). -/
theorem c7_thm (pattern : List Char) (fg : RGB) (bg : Option RGBA)
    (cc : Option (Char → Option RGB))
    (huni : ∀ l1 ∈ (splitLines pattern).filter
        (fun l => isBlankLine l = false),
      ∀ l2 ∈ (splitLines pattern).filter (fun l => isBlankLine l = false),
      leadingWS l1 = leadingWS l2)
    (htrail : ∀ l, (splitLines pattern).getLast? = some l →
      isBlankLine l = false) :
    (create_sprite pattern fg bg cc).frames.length = 1
    ∧ (∀ f ∈ (create_sprite pattern fg bg cc).frames, ∀ r ∈ f.chars,
         r.length = f.width)
    ∧ gridRoundTrip (create_sprite pattern fg bg cc) =
        joinLines ((trimBlankLines (splitLines pattern)).map
          (fun l => rstripSpaces
            (l.drop (minIndentOf (trimBlankLines (splitLines pattern)))))) := by
  by_cases he : (trimBlankLines (splitLines pattern)).isEmpty = true
  · have hemp : trimBlankLines (splitLines pattern) = [] :=
      List.isEmpty_iff.mp he
    have hp : parseFrame pattern cc = none := by
      simp [parseFrame, he]
    refine ⟨by simp [create_sprite, hp, mkSprite], ?_, ?_⟩
    · intro f hf r hr
      simp only [create_sprite, hp, mkSprite, List.mem_singleton] at hf
      subst hf
      simp only [List.mem_singleton] at hr
      subst hr
      rfl
    · simp [create_sprite, hp, mkSprite, gridRoundTrip, hemp, joinLines,
        List.intercalate, rstripSpaces]
  · have he' : (trimBlankLines (splitLines pattern)).isEmpty = false := by
      cases h : (trimBlankLines (splitLines pattern)).isEmpty
      · rfl
      · exact absurd h he
    have hp := parseFrame_eq_some pattern cc he'
    have hmemW : ∀ r ∈ parsedRows pattern, r.length ≤ parsedMaxW pattern := by
      intro r hr
      exact le_foldr_max _ _ (List.mem_map_of_mem List.length hr)
    have hrows_ne : parsedRows pattern ≠ [] := by
      intro hnil
      have : trimBlankLines (splitLines pattern) = [] := by
        have := congrArg List.length hnil
        simp [parsedRows] at this
        exact this
      rw [this] at he'
      simp at he'
    refine ⟨by simp [create_sprite, hp, mkSprite], ?_, ?_⟩
    · intro f hf r hr
      simp only [create_sprite, hp, mkSprite, List.mem_singleton] at hf
      subst hf
      simp only [parsedChars] at hr
      obtain ⟨row, hrow, rfl⟩ := List.mem_map.mp hr
      have hW : ∀ (fgc : Option (List (List (Option RGB))))
          (bgc : Option (List (List (Option RGBA)))),
          SpriteFrame.width ⟨parsedChars pattern, fgc, bgc⟩ =
            parsedMaxW pattern := by
        intro fgc bgc
        unfold SpriteFrame.width
        obtain ⟨r0, rest, hre⟩ := List.exists_cons_of_ne_nil hrows_ne
        simp only [parsedChars, hre, List.map_cons]
        exact padTo_length _ _
          (hmemW r0 (by rw [hre]; exact List.mem_cons_self _ _))
      rw [hW]
      exact padTo_length _ _ (hmemW row hrow)
    · simp only [gridRoundTrip, create_sprite, hp, mkSprite, List.headD]
      show joinLines ((parsedChars pattern).map rstripSpaces) = _
      congr 1
      simp only [parsedChars, parsedRows, List.map_map]
      apply List.map_congr_left
      intro l hl
      simp only [Function.comp]
      rw [rstrip_padTo, dedent_eq_drop]

/-- A well-behaved pattern for the witness: lines " a" and " b" with
uniform indentation 1, no trailing blank lines, no trailing spaces. -/
def patternIndent : List Char := [' ', 'a', '\n', ' ', 'b']

theorem c7_witness :
    (∀ l1 ∈ (splitLines patternIndent).filter
        (fun l => isBlankLine l = false),
     ∀ l2 ∈ (splitLines patternIndent).filter
        (fun l => isBlankLine l = false),
     leadingWS l1 = leadingWS l2) ∧
    (∀ l, (splitLines patternIndent).getLast? = some l →
      isBlankLine l = false) ∧
    ((create_sprite patternIndent (255, 255, 255) none none).frames.length = 1
     ∧ (∀ f ∈ (create_sprite patternIndent (255, 255, 255) none none).frames,
          ∀ r ∈ f.chars, r.length = f.width)
     ∧ gridRoundTrip (create_sprite patternIndent (255, 255, 255) none none) =
         joinLines ((trimBlankLines (splitLines patternIndent)).map
           (fun l => rstripSpaces
             (l.drop (minIndentOf
               (trimBlankLines (splitLines patternIndent))))))) :=
  ⟨by decide, by decide,
   c7_thm patternIndent (255, 255, 255) none none (by decide) (by decide)⟩
